import Mathlib

/-!
Verification of the dronio repository (Visuo XS809 drone remote-control stack).

The first part embeds the flight-control-protocol (FCP) code of the `fly`
package: the bit-serial CRC, the 8-byte command frame with its mutators, and
the stick normalization.  The second part embeds the camera-control-protocol
(CCP) code of the `vtx` package: the `Res` response dispatcher, the
`DownloadVideo` state machine, and the `getLocalIP` address selection.
Go bytes are modelled as `Nat` values kept below 256 (explicitly reduced
mod 256 where the Go byte type truncates); Go `float64` stick values are
modelled as rationals, exact for all magnitudes the code manipulates.
-/

namespace Dronio

/-! ### Flight frame codec (src/unnamed/part_000, package fly) -/

/-- One iteration of the inner loop of the Go `crc` function:
`crc = (crc << 1) + (crc >> 7) ^ (byt >> i & 1)` on Go bytes, which by Go
precedence is `((crc << 1) + (crc >> 7)) ^ bit`; the left shift truncates
to 8 bits and the `+` cannot overflow 8 bits when the accumulator is a
byte. -/
def crcStepBit (acc bit : Nat) : Nat :=
  ((acc <<< 1) % 256 + acc >>> 7) ^^^ bit

/-- The inner loop of the Go `crc` function processing one byte `b`: the
loop `for i := uint(7); i < ^uint(0); i--` runs `i = 7, 6, …, 0`, feeding
the bits of `b` most-significant first. -/
def crcByteStep (c b : Nat) : Nat :=
  crcStepBit (crcStepBit (crcStepBit (crcStepBit (crcStepBit (crcStepBit
    (crcStepBit (crcStepBit c ((b >>> 7) &&& 1)) ((b >>> 6) &&& 1))
      ((b >>> 5) &&& 1)) ((b >>> 4) &&& 1)) ((b >>> 3) &&& 1))
        ((b >>> 2) &&& 1)) ((b >>> 1) &&& 1)) ((b >>> 0) &&& 1)

/-- The Go `crc` function: start from `^byte(0) = 0xFF`, fold every byte
through the bit-serial rotate-and-xor loop. -/
def crc (bytes : List Nat) : Nat :=
  bytes.foldl crcByteStep 255

/-- `crcByteStep` as a fold over the list of data bits; definitionally equal
to the unrolled form. -/
def crcBitsFold (c : Nat) (es : List Nat) : Nat :=
  es.foldl crcStepBit c

theorem xor_mod_two_pow (x y n : Nat) :
    (x ^^^ y) % 2 ^ n = x % 2 ^ n ^^^ y % 2 ^ n := by
  apply Nat.eq_of_testBit_eq
  intro i
  simp only [Nat.testBit_mod_two_pow, Nat.testBit_xor]
  by_cases h : i < n <;> simp [h]

theorem xor_div_two_pow (x y n : Nat) :
    (x ^^^ y) / 2 ^ n = x / 2 ^ n ^^^ y / 2 ^ n := by
  apply Nat.eq_of_testBit_eq
  intro i
  simp only [Nat.testBit_xor, ← Nat.shiftRight_eq_div_pow, Nat.testBit_shiftRight]

theorem xor_lt_two_pow {x y n : Nat} (hx : x < 2 ^ n) (hy : y < 2 ^ n) :
    x ^^^ y < 2 ^ n :=
  Nat.bitwise_lt hx hy

theorem two_mul_xor (a b : Nat) : 2 * (a ^^^ b) = 2 * a ^^^ 2 * b := by
  have h := Nat.xor_bit false a false b
  simpa [Nat.bit] using h.symm

theorem two_mul_add_bit_eq_xor (u s : Nat) (hs : s ≤ 1) :
    2 * u + s = 2 * u ^^^ s := by
  interval_cases s
  · simp
  · have h := Nat.xor_bit false u true 0
    simpa [Nat.bit] using h.symm

theorem crcStepBit_lt {x e : Nat} (hx : x < 256) (he : e ≤ 1) :
    crcStepBit x e < 256 := by
  have h1 : (x <<< 1) % 256 + x >>> 7 < 256 := by
    have : x >>> 7 = x / 128 := by
      simp [Nat.shiftRight_eq_div_pow]
    omega
  exact xor_lt_two_pow (n := 8) h1 (by omega)

/-- The rotate-and-xor step is linear over xor: splitting the accumulator
into an xor of two byte values splits the step. -/
theorem crcStepBit_xor_split {x y : Nat} (e : Nat) (hx : x < 256) (hy : y < 256) :
    crcStepBit (x ^^^ y) e = crcStepBit x 0 ^^^ crcStepBit y e := by
  have hsh : ∀ z : Nat, z < 256 → (z <<< 1) % 256 + z >>> 7 = 2 * (z % 128) + z / 128 := by
    intro z hz
    have h1 : z <<< 1 = 2 * z := by simp [Nat.shiftLeft_eq, Nat.mul_comm]
    have h2 : z >>> 7 = z / 128 := by simp [Nat.shiftRight_eq_div_pow]
    omega
  have hxy : x ^^^ y < 256 := xor_lt_two_pow (n := 8) hx hy
  have hm : (x ^^^ y) % 128 = x % 128 ^^^ y % 128 := xor_mod_two_pow x y 7
  have hd : (x ^^^ y) / 128 = x / 128 ^^^ y / 128 := xor_div_two_pow x y 7
  have hbx : x / 128 ≤ 1 := by omega
  have hby : y / 128 ≤ 1 := by omega
  have hbxy : (x ^^^ y) / 128 ≤ 1 := by omega
  simp only [crcStepBit, hsh _ hx, hsh _ hy, hsh _ hxy]
  rw [two_mul_add_bit_eq_xor _ _ hbxy, two_mul_add_bit_eq_xor _ _ hbx,
    two_mul_add_bit_eq_xor _ _ hby, hm, hd, two_mul_xor]
  simp only [Nat.xor_assoc, Nat.xor_zero]
  rw [Nat.xor_comm (x / 128) (2 * (y % 128) ^^^ (y / 128 ^^^ e))]
  simp only [Nat.xor_assoc]
  rw [← Nat.xor_assoc (x / 128) (y / 128) e, Nat.xor_comm (x / 128) (y / 128),
    Nat.xor_assoc (y / 128) (x / 128) e, Nat.xor_comm (x / 128) e]

/-- The whole bit fold is linear over xor in the accumulator. -/
theorem crcBitsFold_xor_split :
    ∀ (es : List Nat) (x y : Nat), x < 256 → y < 256 → (∀ e ∈ es, e ≤ 1) →
      crcBitsFold (x ^^^ y) es =
        crcBitsFold x (es.map fun _ => 0) ^^^ crcBitsFold y es := by
  intro es
  induction es with
  | nil => intro x y _ _ _; rfl
  | cons e es ih =>
    intro x y hx hy he
    have he1 : e ≤ 1 := he e (List.mem_cons_self e es)
    have hes : ∀ e' ∈ es, e' ≤ 1 := fun e' h => he e' (List.mem_cons_of_mem e h)
    show crcBitsFold (crcStepBit (x ^^^ y) e) es = _
    rw [crcStepBit_xor_split e hx hy,
      ih _ _ (crcStepBit_lt hx (by omega)) (crcStepBit_lt hy he1) hes]
    rfl

set_option maxRecDepth 2000 in
/-- With a zero data byte the eight rotations bring the accumulator back to
itself (checked for all 256 byte values). -/
theorem crcByteStep_zero_right : ∀ c : Fin 256, crcByteStep c.val 0 = c.val := by
  decide

set_option maxRecDepth 2000 in
/-- Starting from a zero accumulator each data bit of the byte ends up at its
own position (checked for all 256 byte values). -/
theorem crcByteStep_zero_left : ∀ b : Fin 256, crcByteStep 0 b.val = b.val := by
  decide

theorem bit_le_one (b i : Nat) : (b >>> i) &&& 1 ≤ 1 := by
  have := Nat.and_le_right (n := b >>> i) (m := 1)
  omega

/-- Key arithmetic fact about the rotate-left-and-xor loop: over one full
byte, each data bit returns to its own position, so one byte-step is a
plain xor of the accumulator and the data byte. -/
theorem crcByteStep_eq_xor {c b : Nat} (hc : c < 256) (hb : b < 256) :
    crcByteStep c b = c ^^^ b := by
  have hfold : crcByteStep c b =
      crcBitsFold c [(b >>> 7) &&& 1, (b >>> 6) &&& 1, (b >>> 5) &&& 1,
        (b >>> 4) &&& 1, (b >>> 3) &&& 1, (b >>> 2) &&& 1,
        (b >>> 1) &&& 1, (b >>> 0) &&& 1] := rfl
  have hzero : crcByteStep c 0 =
      crcBitsFold c [0, 0, 0, 0, 0, 0, 0, 0] := rfl
  have hx : c ^^^ 0 = c := Nat.xor_zero c
  have hsplit := crcBitsFold_xor_split
    [(b >>> 7) &&& 1, (b >>> 6) &&& 1, (b >>> 5) &&& 1, (b >>> 4) &&& 1,
      (b >>> 3) &&& 1, (b >>> 2) &&& 1, (b >>> 1) &&& 1, (b >>> 0) &&& 1]
    c 0 hc (by omega) (by
      intro e he
      simp only [List.mem_cons, List.not_mem_nil, or_false] at he
      rcases he with h | h | h | h | h | h | h | h <;>
        (subst h; exact bit_le_one b _))
  rw [hx] at hsplit
  simp only [List.map_cons, List.map_nil] at hsplit
  have h1 : crcByteStep c 0 = c := crcByteStep_zero_right ⟨c, hc⟩
  have h2 : crcByteStep 0 b = b := crcByteStep_zero_left ⟨b, hb⟩
  have hzl : crcBitsFold 0 [(b >>> 7) &&& 1, (b >>> 6) &&& 1, (b >>> 5) &&& 1,
      (b >>> 4) &&& 1, (b >>> 3) &&& 1, (b >>> 2) &&& 1, (b >>> 1) &&& 1,
      (b >>> 0) &&& 1] = crcByteStep 0 b := rfl
  rw [hfold, hsplit, hzl, ← hzero, h1, h2]

theorem foldl_xor_shift (bs : List Nat) :
    ∀ x y : Nat, bs.foldl (· ^^^ ·) (x ^^^ y) = x ^^^ bs.foldl (· ^^^ ·) y := by
  induction bs with
  | nil => intro x y; rfl
  | cons b bs ih =>
    intro x y
    show bs.foldl (· ^^^ ·) ((x ^^^ y) ^^^ b) = x ^^^ bs.foldl (· ^^^ ·) (y ^^^ b)
    rw [Nat.xor_assoc, ih]

theorem foldl_xor_lt (bs : List Nat) :
    ∀ a : Nat, a < 256 → (∀ b ∈ bs, b < 256) → bs.foldl (· ^^^ ·) a < 256 := by
  induction bs with
  | nil => intro a ha _; exact ha
  | cons b bs ih =>
    intro a ha h
    exact ih (a ^^^ b) (xor_lt_two_pow (n := 8) ha (h b (List.mem_cons_self b bs)))
      fun x hx => h x (List.mem_cons_of_mem b hx)

theorem crc_foldl_eq (bs : List Nat) :
    ∀ a : Nat, a < 256 → (∀ b ∈ bs, b < 256) →
      bs.foldl crcByteStep a = a ^^^ bs.foldl (· ^^^ ·) 0 := by
  induction bs with
  | nil => intro a _ _; exact (Nat.xor_zero a).symm
  | cons b bs ih =>
    intro a ha h
    have hb : b < 256 := h b (List.mem_cons_self b bs)
    have hrest : ∀ x ∈ bs, x < 256 := fun x hx => h x (List.mem_cons_of_mem b hx)
    show bs.foldl crcByteStep (crcByteStep a b) = _
    rw [crcByteStep_eq_xor ha hb, ih _ (xor_lt_two_pow (n := 8) ha hb) hrest]
    show (a ^^^ b) ^^^ bs.foldl (· ^^^ ·) 0 = a ^^^ bs.foldl (· ^^^ ·) (0 ^^^ b)
    rw [Nat.xor_assoc, Nat.zero_xor, ← foldl_xor_shift, Nat.xor_comm b 0,
      Nat.zero_xor]

/-- Helper: the bit-serial `crc` is the complement of the byte-wise xor
parity (used throughout the frame-validity proofs). -/
theorem crc_complement_parity_aux (bs : List Nat) (h : ∀ b ∈ bs, b < 256) :
    crc bs = 255 ^^^ bs.foldl (· ^^^ ·) 0 :=
  crc_foldl_eq bs 255 (by omega) h

/-- C10: the bit-serial `crc` over any sequence of bytes equals
`0xFF XOR bs[0] XOR … XOR bs[n-1]`, the complement of the byte-wise xor
parity: each data bit's contribution returns to its own bit position after
the full pass. -/
theorem crc_eq_complement_parity (bs : List Nat) (h : ∀ b ∈ bs, b < 256) :
    crc bs = 255 ^^^ bs.foldl (· ^^^ ·) 0 :=
  crc_complement_parity_aux bs h

/-- Witness for `crc_eq_complement_parity` at a concrete byte sequence. -/
theorem crc_eq_complement_parity_witness :
    crc [0x66, 0x12, 0x99] = 255 ^^^ [0x66, 0x12, 0x99].foldl (· ^^^ ·) 0 :=
  crc_eq_complement_parity [0x66, 0x12, 0x99] (by decide)

/-! ### The command frame and its mutators (src/unnamed/part_000) -/

/-- The 8-byte flight datagram held by `Cmd.data`.  Go stores it as an
8-byte slice; the named indexes are `rollByte = 1`, `pitchByte = 2`,
`throttleByte = 3`, `yawByte = 4`, `flagsByte = 5`, `crcByte = 6`. -/
structure Frame where
  b0 : Nat
  b1 : Nat
  b2 : Nat
  b3 : Nat
  b4 : Nat
  b5 : Nat
  b6 : Nat
  b7 : Nat
deriving DecidableEq, Repr

/-- The frame as the byte slice `c.data`. -/
def Frame.toList (f : Frame) : List Nat :=
  [f.b0, f.b1, f.b2, f.b3, f.b4, f.b5, f.b6, f.b7]

/-- `NewCmd`: `data: []byte{0x66, 0x80, 0x80, 0x80, 0x80, 0x00, 0x00, 0x99}`. -/
def NewCmd : Frame :=
  ⟨0x66, 0x80, 0x80, 0x80, 0x80, 0x00, 0x00, 0x99⟩

/-- `Cmd.update`: apply the mutation `g` to the data, zero the CRC byte,
then store the CRC of the whole 8-byte slice in byte 6 — all under the
writer lock. -/
def Cmd.update (g : Frame → Frame) (f : Frame) : Frame :=
  let d := g f
  let d := { d with b6 := 0 }
  { d with b6 := crc d.toList }

/-- `Cmd.isValid`: length 8, magic bytes, and a single CRC pass over all 8
bytes (stored CRC included) yields 0. -/
def Cmd.isValid (f : Frame) : Bool :=
  f.toList.length == 8 && f.b0 == 0x66 && f.b7 == 0x99 && crc f.toList == 0

/-- `Cmd.setFlag`: `data[flagsByte] |= flag` (flag is a Go byte). -/
def Cmd.setFlag (flag : Nat) (f : Frame) : Frame :=
  Cmd.update (fun d => { d with b5 := d.b5 ||| flag % 256 }) f

/-- `Cmd.clearFlag`: `data[flagsByte] &^= flag` — AND with the 8-bit
complement of the flag byte. -/
def Cmd.clearFlag (flag : Nat) (f : Frame) : Frame :=
  Cmd.update (fun d => { d with b5 := d.b5 &&& (255 ^^^ flag % 256) }) f

/-- `normalize`: clamp to [-1, +1], then `byte(128 + val*127)`.  The Go
float-to-byte conversion truncates toward zero; the clamped argument makes
`128 + val*127` lie in [1, 255], where truncation toward zero is the floor.
Stick values are modelled as rationals (exact for the float64 values the
code produces). -/
def normalize (val : ℚ) : Nat :=
  let val := if val > 1 then 1 else val
  let val := if val < -1 then -1 else val
  (⌊(128 : ℚ) + val * 127⌋).toNat

/-- `Driver.Sticks(up, rotate, forwards, sideways)`: one `update` writing
all four stick bytes. -/
def Driver.Sticks (up rotate forwards sideways : ℚ) (f : Frame) : Frame :=
  Cmd.update (fun d =>
    { d with
      b1 := normalize sideways
      b2 := normalize forwards
      b3 := normalize up
      b4 := normalize rotate }) f

/-- `Driver.Hover`: one `update` writing all four stick bytes to
`normalize 0`. -/
def Driver.Hover (f : Frame) : Frame :=
  Cmd.update (fun d =>
    { d with
      b1 := normalize 0
      b2 := normalize 0
      b3 := normalize 0
      b4 := normalize 0 }) f

/-- `Driver.reset`: one `update` writing neutral sticks and zero flags. -/
def Driver.reset (f : Frame) : Frame :=
  Cmd.update (fun d =>
    { d with
      b1 := normalize 0
      b2 := normalize 0
      b3 := normalize 0
      b4 := normalize 0
      b5 := 0 }) f

/-- All eight slots hold byte values, as Go's `[]byte` guarantees. -/
def Frame.BytesLT (f : Frame) : Prop :=
  f.b0 < 256 ∧ f.b1 < 256 ∧ f.b2 < 256 ∧ f.b3 < 256 ∧
  f.b4 < 256 ∧ f.b5 < 256 ∧ f.b6 < 256 ∧ f.b7 < 256

theorem lor_lt_two_pow {x y n : Nat} (hx : x < 2 ^ n) (hy : y < 2 ^ n) :
    x ||| y < 2 ^ n :=
  Nat.bitwise_lt hx hy

/-- The clamped value the Go code converts to a byte. -/
def clampStick (v : ℚ) : ℚ :=
  if (if v > 1 then 1 else v) < -1 then -1 else if v > 1 then 1 else v

theorem normalize_eq (v : ℚ) :
    normalize v = (⌊(128 : ℚ) + clampStick v * 127⌋).toNat := rfl

theorem clampStick_mem (v : ℚ) : -1 ≤ clampStick v ∧ clampStick v ≤ 1 := by
  unfold clampStick
  by_cases hgt : v > 1
  · simp only [if_pos hgt]
    norm_num
  · simp only [if_neg hgt]
    by_cases hlt : v < -1
    · simp only [if_pos hlt]
      norm_num
    · simp only [if_neg hlt]
      constructor <;> linarith [not_lt.mp hgt, not_lt.mp hlt]

theorem normalize_bounds (v : ℚ) : 1 ≤ normalize v ∧ normalize v ≤ 255 := by
  rw [normalize_eq]
  obtain ⟨hlo, hhi⟩ := clampStick_mem v
  set w : ℚ := clampStick v
  have h1 : (1 : ℚ) ≤ 128 + w * 127 := by nlinarith
  have h2 : (128 : ℚ) + w * 127 ≤ 255 := by nlinarith
  have hf1 : (1 : ℤ) ≤ ⌊(128 : ℚ) + w * 127⌋ := by
    rw [Int.le_floor]; exact_mod_cast h1
  have hf2 : ⌊(128 : ℚ) + w * 127⌋ ≤ 255 := by
    have := Int.floor_mono h2
    simpa using this
  constructor
  · omega
  · omega

theorem normalize_lt (v : ℚ) : normalize v < 256 := by
  have := (normalize_bounds v).2
  omega

/-- Inserting the complement-of-parity CRC into slot 6 makes the full pass
cancel to 0. -/
theorem xor_insert_cancel (A x7 : Nat) :
    255 ^^^ ((A ^^^ (255 ^^^ (A ^^^ x7))) ^^^ x7) = 0 := by
  rw [← Nat.xor_assoc 255 A x7, ← Nat.xor_assoc A (255 ^^^ A) x7,
    Nat.xor_comm 255 A, Nat.xor_cancel_left, Nat.xor_assoc]
  simp

/-- Writing `crc` of the CRC-zeroed frame into slot 6 yields a frame whose
full CRC pass is 0. -/
theorem update_crc_zero (x0 x1 x2 x3 x4 x5 x7 : Nat)
    (h0 : x0 < 256) (h1 : x1 < 256) (h2 : x2 < 256) (h3 : x3 < 256)
    (h4 : x4 < 256) (h5 : x5 < 256) (h7 : x7 < 256) :
    crc [x0, x1, x2, x3, x4, x5, crc [x0, x1, x2, x3, x4, x5, 0, x7], x7] = 0 := by
  have hKin : ∀ b ∈ [x0, x1, x2, x3, x4, x5, 0, x7], b < 256 := by
    intro b hb
    simp only [List.mem_cons, List.not_mem_nil, or_false] at hb
    rcases hb with h | h | h | h | h | h | h | h <;> omega
  have hKeq := crc_complement_parity_aux _ hKin
  have hK256 : crc [x0, x1, x2, x3, x4, x5, 0, x7] < 256 := by
    rw [hKeq]
    exact xor_lt_two_pow (n := 8) (by omega)
      (foldl_xor_lt _ 0 (by omega) hKin)
  have hout : ∀ b ∈ [x0, x1, x2, x3, x4, x5,
      crc [x0, x1, x2, x3, x4, x5, 0, x7], x7], b < 256 := by
    intro b hb
    simp only [List.mem_cons, List.not_mem_nil, or_false] at hb
    rcases hb with h | h | h | h | h | h | h | h <;> omega
  rw [crc_complement_parity_aux _ hout, hKeq]
  simp only [List.foldl, Nat.zero_xor, Nat.xor_zero]
  exact xor_insert_cancel _ x7

/-- Any `Cmd.update` whose mutation keeps bytes 0 and 7 and writes byte
values produces a CRC-valid frame with the magic bytes intact. -/
theorem Cmd.update_valid (g : Frame → Frame) (f : Frame)
    (h0 : (g f).b0 = f.b0) (h7 : (g f).b7 = f.b7) (hB : (g f).BytesLT) :
    (Cmd.update g f).b0 = f.b0 ∧ (Cmd.update g f).b7 = f.b7 ∧
    (Cmd.update g f).BytesLT ∧ crc (Cmd.update g f).toList = 0 := by
  obtain ⟨hb0, hb1, hb2, hb3, hb4, hb5, _, hb7⟩ := hB
  have hlist : (Cmd.update g f).toList =
      [(g f).b0, (g f).b1, (g f).b2, (g f).b3, (g f).b4, (g f).b5,
        crc [(g f).b0, (g f).b1, (g f).b2, (g f).b3, (g f).b4, (g f).b5, 0,
          (g f).b7], (g f).b7] := rfl
  have hz := update_crc_zero (g f).b0 (g f).b1 (g f).b2 (g f).b3 (g f).b4
    (g f).b5 (g f).b7 hb0 hb1 hb2 hb3 hb4 hb5 hb7
  have hKin : ∀ b ∈ [(g f).b0, (g f).b1, (g f).b2, (g f).b3, (g f).b4,
      (g f).b5, 0, (g f).b7], b < 256 := by
    intro b hb
    simp only [List.mem_cons, List.not_mem_nil, or_false] at hb
    rcases hb with h | h | h | h | h | h | h | h <;> omega
  have hK256 : crc [(g f).b0, (g f).b1, (g f).b2, (g f).b3, (g f).b4,
      (g f).b5, 0, (g f).b7] < 256 := by
    rw [crc_complement_parity_aux _ hKin]
    exact xor_lt_two_pow (n := 8) (by omega)
      (foldl_xor_lt _ 0 (by omega) hKin)
  refine ⟨h0, h7, ⟨?_, ?_, ?_, ?_, ?_, ?_, ?_, ?_⟩, ?_⟩
  · show (g f).b0 < 256; omega
  · show (g f).b1 < 256; omega
  · show (g f).b2 < 256; omega
  · show (g f).b3 < 256; omega
  · show (g f).b4 < 256; omega
  · show (g f).b5 < 256; omega
  · exact hK256
  · show (g f).b7 < 256; omega
  · rw [hlist]; exact hz

/-- The mutators named by the spec's invariant claim: `setFlag`,
`clearFlag`, `Sticks`, `Hover`, `reset`. -/
inductive Mut where
  | setFlag (flag : Nat)
  | clearFlag (flag : Nat)
  | sticks (up rotate forwards sideways : ℚ)
  | hover
  | reset

/-- Dispatch one mutation to the corresponding mutator of the code. -/
def applyMut : Mut → Frame → Frame
  | .setFlag flag => Cmd.setFlag flag
  | .clearFlag flag => Cmd.clearFlag flag
  | .sticks up rot fwd side => Driver.Sticks up rot fwd side
  | .hover => Driver.Hover
  | .reset => Driver.reset

/-- A finite sequence of mutations applied to the command buffer. -/
def applyMuts (ms : List Mut) (f : Frame) : Frame :=
  ms.foldl (fun f m => applyMut m f) f

/-- Every single mutator preserves the magic bytes, keeps byte values, and
leaves a CRC-valid frame. -/
theorem applyMut_valid (m : Mut) (f : Frame) (hB : f.BytesLT) :
    (applyMut m f).b0 = f.b0 ∧ (applyMut m f).b7 = f.b7 ∧
    (applyMut m f).BytesLT ∧ crc (applyMut m f).toList = 0 := by
  obtain ⟨hb0, hb1, hb2, hb3, hb4, hb5, hb6, hb7⟩ := hB
  cases m with
  | setFlag flag =>
    exact Cmd.update_valid _ f rfl rfl
      ⟨hb0, hb1, hb2, hb3, hb4,
        lor_lt_two_pow (n := 8) hb5 (Nat.mod_lt _ (by omega)), hb6, hb7⟩
  | clearFlag flag =>
    refine Cmd.update_valid _ f rfl rfl
      ⟨hb0, hb1, hb2, hb3, hb4, ?_, hb6, hb7⟩
    show f.b5 &&& (255 ^^^ flag % 256) < 256
    have := Nat.and_le_left (n := f.b5) (m := 255 ^^^ flag % 256)
    omega
  | sticks up rot fwd side =>
    exact Cmd.update_valid _ f rfl rfl
      ⟨hb0, normalize_lt _, normalize_lt _, normalize_lt _, normalize_lt _,
        hb5, hb6, hb7⟩
  | hover =>
    exact Cmd.update_valid _ f rfl rfl
      ⟨hb0, normalize_lt _, normalize_lt _, normalize_lt _, normalize_lt _,
        hb5, hb6, hb7⟩
  | reset =>
    exact Cmd.update_valid _ f rfl rfl
      ⟨hb0, normalize_lt _, normalize_lt _, normalize_lt _, normalize_lt _,
        show (0 : Nat) < 256 by omega, hb6, hb7⟩

theorem applyMuts_inv (ms : List Mut) :
    ∀ f : Frame, f.b0 = 0x66 → f.b7 = 0x99 → f.BytesLT → crc f.toList = 0 →
      (applyMuts ms f).b0 = 0x66 ∧ (applyMuts ms f).b7 = 0x99 ∧
      (applyMuts ms f).BytesLT ∧ crc (applyMuts ms f).toList = 0 := by
  induction ms with
  | nil => intro f h0 h7 hB hc; exact ⟨h0, h7, hB, hc⟩
  | cons m ms ih =>
    intro f h0 h7 hB _
    obtain ⟨g0, g7, gB, gc⟩ := applyMut_valid m f hB
    exact ih (applyMut m f) (g0.trans h0) (g7.trans h7) gB gc

theorem NewCmd_BytesLT : NewCmd.BytesLT :=
  ⟨by decide, by decide, by decide, by decide,
    by decide, by decide, by decide, by decide⟩

set_option maxRecDepth 2000 in
theorem NewCmd_crc : crc NewCmd.toList = 0 := by
  decide

/-- C1: any finite sequence of mutations (`setFlag`, `clearFlag`, `Sticks`,
`Hover`, `reset`) applied to the initial command buffer yields a frame `F`
with `F[0] = 0x66`, `F[7] = 0x99`, `len F = 8`, a full CRC pass of 0 (so
`isValid F` holds); and no mutator ever overwrites bytes 0 or 7. -/
theorem cmd_mutation_invariant (ms : List Mut) :
    (applyMuts ms NewCmd).b0 = 0x66 ∧ (applyMuts ms NewCmd).b7 = 0x99 ∧
    (applyMuts ms NewCmd).toList.length = 8 ∧
    crc (applyMuts ms NewCmd).toList = 0 ∧
    Cmd.isValid (applyMuts ms NewCmd) = true ∧
    (∀ (m : Mut) (f : Frame),
      (applyMut m f).b0 = f.b0 ∧ (applyMut m f).b7 = f.b7) := by
  have hbase := applyMuts_inv ms NewCmd rfl rfl NewCmd_BytesLT NewCmd_crc
  obtain ⟨h0, h7, _, hc⟩ := hbase
  have hlen : (applyMuts ms NewCmd).toList.length = 8 := rfl
  have hvalid : Cmd.isValid (applyMuts ms NewCmd) = true := by
    unfold Cmd.isValid
    rw [h0, h7, hc]
    rfl
  have hpres : ∀ (m : Mut) (f : Frame),
      (applyMut m f).b0 = f.b0 ∧ (applyMut m f).b7 = f.b7 := by
    intro m f
    cases m <;> exact ⟨rfl, rfl⟩
  exact ⟨h0, h7, hlen, hc, hvalid, hpres⟩

/-! ### Stick normalization: claims C2 and C3 -/

/-- Round toward zero, the `round_toward_zero` of the spec's normalization
formula (spec-side definition used to compare against the code). -/
def truncToZero (q : ℚ) : ℤ :=
  if 0 ≤ q then ⌊q⌋ else ⌈q⌉

theorem clampStick_of_mem {v : ℚ} (h1 : -1 ≤ v) (h2 : v ≤ 1) :
    clampStick v = v := by
  unfold clampStick
  rw [if_neg (by linarith : ¬ v > 1), if_neg (by linarith : ¬ v < -1)]

/-- Evaluation rule for `normalize` at in-range values. -/
theorem normalize_eval {v : ℚ} {n : ℕ} (h1 : -1 ≤ v) (h2 : v ≤ 1)
    (h : ⌊(128 : ℚ) + v * 127⌋ = (n : ℤ)) : normalize v = n := by
  rw [normalize_eq, clampStick_of_mem h1 h2, h, Int.toNat_natCast]

theorem normalize_neg_half : normalize (-(1 : ℚ)/2) = 64 :=
  normalize_eval (by norm_num) (by norm_num) (by norm_num)

theorem normalize_half : normalize ((1 : ℚ)/2) = 191 :=
  normalize_eval (by norm_num) (by norm_num) (by norm_num)

/-- C2 counterexample: at `v = -1/2` the code returns
`⌊128 + (-1/2)·127⌋ = ⌊64.5⌋ = 64 = 0x40`, while the spec's formula
`128 + round_toward_zero(v·127) = 128 - 63 = 65 = 0x41`. -/
theorem normalize_ne_spec_formula :
    normalize (-(1 : ℚ)/2) = 64 ∧
    ((128 + truncToZero (-(1 : ℚ)/2 * 127)).toNat = 65) ∧
    normalize (-(1 : ℚ)/2) ≠ (128 + truncToZero (-(1 : ℚ)/2 * 127)).toNat := by
  have h1 := normalize_neg_half
  have h2 : (128 + truncToZero (-(1 : ℚ)/2 * 127)).toNat = 65 := by
    have hq : (-(1 : ℚ)/2 * 127) = -(127/2) := by norm_num
    rw [truncToZero, hq, if_neg (by norm_num : ¬ (0 : ℚ) ≤ -(127/2)),
      Int.ceil_neg]
    norm_num
    rfl
  exact ⟨h1, h2, by omega⟩

theorem clampStick_mono {a b : ℚ} (hab : a ≤ b) :
    clampStick a ≤ clampStick b := by
  obtain ⟨ha1, ha2⟩ := clampStick_mem a
  obtain ⟨hb1, hb2⟩ := clampStick_mem b
  by_cases hbgt : b > 1
  · have : clampStick b = 1 := by
      unfold clampStick
      rw [if_pos hbgt, if_neg (by norm_num : ¬ (1 : ℚ) < -1)]
    rw [this]; exact ha2
  · have hb : b ≤ 1 := not_lt.mp hbgt
    have hagt : ¬ a > 1 := by push_neg; linarith
    by_cases halt : a < -1
    · have : clampStick a = -1 := by
        unfold clampStick
        rw [if_neg hagt, if_pos halt]
      rw [this]; exact hb1
    · have ha : clampStick a = a := clampStick_of_mem (not_lt.mp halt) (not_lt.mp hagt)
      by_cases hblt : b < -1
      · exact absurd (lt_of_le_of_lt hab hblt) halt
      · have hbv : clampStick b = b := clampStick_of_mem (not_lt.mp hblt) hb
        rw [ha, hbv]; exact hab

theorem clampStick_high {v : ℚ} (h : 1 < v) : clampStick v = clampStick 1 := by
  have h1 : clampStick v = 1 := by
    unfold clampStick
    rw [if_pos h, if_neg (by norm_num : ¬ (1 : ℚ) < -1)]
  have h2 : clampStick 1 = 1 := clampStick_of_mem (by norm_num) le_rfl
  rw [h1, h2]

theorem clampStick_low {v : ℚ} (h : v < -1) : clampStick v = clampStick (-1) := by
  have h1 : clampStick v = -1 := by
    unfold clampStick
    rw [if_neg (by linarith : ¬ v > 1), if_pos h]
  have h2 : clampStick (-1) = -1 := clampStick_of_mem le_rfl (by norm_num)
  rw [h1, h2]

/-- C2 (amended): `normalize` clamps to [-1, +1] and returns
`128 + ⌊v·127⌋` — floor, not round-toward-zero; the endpoint values
`-1 ↦ 0x01`, `0 ↦ 0x80`, `+1 ↦ 0xFF` hold; `normalize` is monotone
non-decreasing; out-of-range inputs yield the nearer endpoint's byte. -/
theorem normalize_correct :
    (∀ v : ℚ, -1 ≤ v → v ≤ 1 → normalize v = (128 + ⌊v * 127⌋).toNat) ∧
    normalize (-1) = 0x01 ∧ normalize 0 = 0x80 ∧ normalize 1 = 0xFF ∧
    (∀ a b : ℚ, a ≤ b → normalize a ≤ normalize b) ∧
    (∀ v : ℚ, 1 < v → normalize v = normalize 1) ∧
    (∀ v : ℚ, v < -1 → normalize v = normalize (-1)) := by
  refine ⟨?_,
    normalize_eval (by norm_num) (by norm_num) (by norm_num),
    normalize_eval (by norm_num) (by norm_num) (by norm_num),
    normalize_eval (by norm_num) (by norm_num) (by norm_num), ?_, ?_, ?_⟩
  · intro v h1 h2
    rw [normalize_eq, clampStick_of_mem h1 h2]
    have heq : (128 : ℚ) + v * 127 = v * 127 + ((128 : ℤ) : ℚ) := by
      push_cast; ring
    rw [heq, Int.floor_add_int, Int.add_comm]
  · intro a b hab
    rw [normalize_eq, normalize_eq]
    have hc : clampStick a ≤ clampStick b := clampStick_mono hab
    have hfl : ⌊(128 : ℚ) + clampStick a * 127⌋ ≤ ⌊(128 : ℚ) + clampStick b * 127⌋ :=
      Int.floor_mono (by nlinarith)
    exact Int.toNat_le_toNat hfl
  · intro v h
    rw [normalize_eq, normalize_eq, clampStick_high h]
  · intro v h
    rw [normalize_eq, normalize_eq, clampStick_low h]

/-- Witness for `normalize_correct` at concrete inputs. -/
theorem normalize_correct_witness :
    normalize (1/2 : ℚ) = (128 + ⌊(1/2 : ℚ) * 127⌋).toNat ∧
    normalize (1/4 : ℚ) ≤ normalize (1/2 : ℚ) ∧
    normalize (7 : ℚ) = normalize 1 ∧
    normalize (-3 : ℚ) = normalize (-1) :=
  ⟨normalize_correct.1 (1/2) (by norm_num) (by norm_num),
    normalize_correct.2.2.2.2.1 (1/4) (1/2) (by norm_num),
    normalize_correct.2.2.2.2.2.1 7 (by norm_num),
    normalize_correct.2.2.2.2.2.2 (-3) (by norm_num)⟩

/-- C3 counterexample: `Sticks(0.5, -0.5, 1.0, -1.0)` writes throttle byte
`normalize 0.5 = ⌊191.5⌋ = 191 = 0xBF`, not the claimed `0xC0`. -/
theorem sticks_throttle_ne_claimed :
    (Driver.Sticks (1/2) (-(1/2)) 1 (-1) NewCmd).b3 = 0xBF ∧
    (Driver.Sticks (1/2) (-(1/2)) 1 (-1) NewCmd).b3 ≠ 0xC0 := by
  have h : (Driver.Sticks (1/2) (-(1/2)) 1 (-1) NewCmd).b3 = normalize (1/2) := rfl
  rw [h, normalize_half]
  omega

/-- C3 (amended): from any frame, `Sticks(0.5, -0.5, 1.0, -1.0)` sets
roll = 0x01, pitch = 0xFF, throttle = 0xBF (each `128 + ⌊v·127⌋`),
yaw = 0x40, and leaves the flags byte unchanged. -/
theorem sticks_scenario (f : Frame) :
    (Driver.Sticks (1/2) (-(1/2)) 1 (-1) f).b1 = 0x01 ∧
    (Driver.Sticks (1/2) (-(1/2)) 1 (-1) f).b2 = 0xFF ∧
    (Driver.Sticks (1/2) (-(1/2)) 1 (-1) f).b3 = 0xBF ∧
    (Driver.Sticks (1/2) (-(1/2)) 1 (-1) f).b4 = 0x40 ∧
    (Driver.Sticks (1/2) (-(1/2)) 1 (-1) f).b5 = f.b5 :=
  ⟨normalize_eval (by norm_num) (by norm_num) (by norm_num),
    normalize_eval (by norm_num) (by norm_num) (by norm_num),
    normalize_eval (by norm_num) (by norm_num) (by norm_num),
    normalize_eval (by norm_num) (by norm_num) (by norm_num),
    rfl⟩

/-! ### The blocking `Go*` helpers (claim C5) -/

/-- One step of a blocking helper: a command-buffer mutation or a
`time.Sleep`. -/
inductive FlyStep where
  | mutStep (g : Frame → Frame)
  | sleepMs (ms : Nat)

/-- Final frame after running the steps in order (sleeps do not change the
frame). -/
def runSteps (ss : List FlyStep) (f : Frame) : Frame :=
  ss.foldl (fun f s => match s with | .mutStep g => g f | .sleepMs _ => f) f

/-- Total blocking time of a helper, in milliseconds. -/
def totalSleepMs (ss : List FlyStep) : Nat :=
  ss.foldl (fun n s => match s with | .sleepMs m => n + m | .mutStep _ => n) 0

/-- `Driver.GoUp`: set throttle to `normalize(speed / +1)`, sleep 500 ms,
then `Hover`. -/
def Driver.GoUp (speed : ℚ) : List FlyStep :=
  [.mutStep (Cmd.update fun d => { d with b3 := normalize (speed / 1) }),
    .sleepMs 500, .mutStep Driver.Hover]

/-- `Driver.GoDown`: set throttle to `normalize(speed / -1)`, sleep 500 ms,
then `Hover`. -/
def Driver.GoDown (speed : ℚ) : List FlyStep :=
  [.mutStep (Cmd.update fun d => { d with b3 := normalize (speed / -1) }),
    .sleepMs 500, .mutStep Driver.Hover]

/-- `Driver.GoRight`: set roll to `normalize(speed / +1)`, sleep 500 ms,
then `Hover`. -/
def Driver.GoRight (speed : ℚ) : List FlyStep :=
  [.mutStep (Cmd.update fun d => { d with b1 := normalize (speed / 1) }),
    .sleepMs 500, .mutStep Driver.Hover]

/-- `Driver.GoLeft`: set roll to `normalize(speed / -1)`, sleep 500 ms,
then `Hover`. -/
def Driver.GoLeft (speed : ℚ) : List FlyStep :=
  [.mutStep (Cmd.update fun d => { d with b1 := normalize (speed / -1) }),
    .sleepMs 500, .mutStep Driver.Hover]

/-- `Driver.GoForward`: set pitch to `normalize(speed / +1)`, sleep 500 ms,
then `Hover`. -/
def Driver.GoForward (speed : ℚ) : List FlyStep :=
  [.mutStep (Cmd.update fun d => { d with b2 := normalize (speed / 1) }),
    .sleepMs 500, .mutStep Driver.Hover]

/-- `Driver.GoBackward`: set pitch to `normalize(speed / -1)`, sleep 500 ms,
then `Hover`. -/
def Driver.GoBackward (speed : ℚ) : List FlyStep :=
  [.mutStep (Cmd.update fun d => { d with b2 := normalize (speed / -1) }),
    .sleepMs 500, .mutStep Driver.Hover]

/-- `Driver.GoClockwise`: set yaw to `normalize(speed / -1)`, sleep 500 ms,
then `Hover`. -/
def Driver.GoClockwise (speed : ℚ) : List FlyStep :=
  [.mutStep (Cmd.update fun d => { d with b4 := normalize (speed / -1) }),
    .sleepMs 500, .mutStep Driver.Hover]

/-- `Driver.GoCounterClockwise` in the source sets yaw to
`normalize(speed / +1)` and returns: it contains no `time.Sleep` and no
`Hover` call, unlike the other seven helpers. -/
def Driver.GoCounterClockwise (speed : ℚ) : List FlyStep :=
  [.mutStep (Cmd.update fun d => { d with b4 := normalize (speed / 1) })]

/-- C5 evaluation at the failing input: `GoCounterClockwise(0.5)` blocks
0 ms (not 500 ms) and returns with the yaw byte still at
`normalize(0.5) = 0xBF` — the sticks are not neutral on return — whereas
`GoClockwise(0.5)` blocks 500 ms and returns with neutral sticks. -/
theorem goCounterClockwise_no_block :
    totalSleepMs (Driver.GoCounterClockwise (1/2)) = 0 ∧
    (runSteps (Driver.GoCounterClockwise (1/2)) NewCmd).b4 = 0xBF ∧
    (runSteps (Driver.GoCounterClockwise (1/2)) NewCmd).b4 ≠ 0x80 ∧
    totalSleepMs (Driver.GoClockwise (1/2)) = 500 ∧
    (runSteps (Driver.GoClockwise (1/2)) NewCmd).b4 = 0x80 := by
  have hccw : (runSteps (Driver.GoCounterClockwise (1/2)) NewCmd).b4 =
      normalize ((1/2) / 1) := rfl
  have hval : normalize ((1/2 : ℚ) / 1) = 0xBF :=
    normalize_eval (by norm_num) (by norm_num) (by norm_num)
  have hcw : (runSteps (Driver.GoClockwise (1/2)) NewCmd).b4 = normalize 0 := rfl
  have hneu : normalize (0 : ℚ) = 0x80 :=
    normalize_eval (by norm_num) (by norm_num) (by norm_num)
  refine ⟨rfl, ?_, ?_, rfl, ?_⟩
  · rw [hccw, hval]
  · rw [hccw, hval]; omega
  · rw [hcw, hneu]

/-! ### Overlapping flag pulses (claim C4) -/

/-- One `tempSetFlag(mask, dur)` call issued at time `start`: it sets the
mask immediately and schedules — via `time.AfterFunc`, without cancelling
any pending timer — a clear of the same mask at `start + dur`. -/
structure Pulse where
  mask : Nat
  start : Nat
  dur : Nat

/-- Flags byte at (discrete) time `t`: all set events and all scheduled
clear events with firing time ≤ `t` applied in time order, sets before
clears at equal instants.  Faithful to `tempSetFlag`: every `AfterFunc`
clear fires; none is cancelled. -/
def flagsAt (ps : List Pulse) (t : Nat) : Nat :=
  (List.range (t + 1)).foldl
    (fun fl s =>
      let fl := ps.foldl
        (fun fl p => if p.start = s then fl ||| p.mask % 256 else fl) fl
      ps.foldl
        (fun fl p => if p.start + p.dur = s then fl &&& (255 ^^^ p.mask % 256) else fl) fl)
    0

/-- Two overlapping pulses on the same mask bit: the first at t = 0 lasting
2 ticks, the second at t = 1 lasting 2 ticks. -/
def overlapPulses : List Pulse :=
  [⟨1, 0, 2⟩, ⟨1, 1, 2⟩]

/-- C4 evaluation at the failing input: with two overlapping pulses on the
same mask, the earlier pending clear (firing at t = 2) clears the bit while
the later pulse is still active (its clear fires only at t = 3): the flag
reads 1 at t = 1 but 0 already at t = 2, contradicting "the bits remain
continuously set until the later of the two scheduled clears fires". -/
theorem tempSetFlag_overlap_clears_early :
    flagsAt overlapPulses 1 = 1 ∧
    flagsAt overlapPulses 2 = 0 ∧
    flagsAt overlapPulses 3 = 0 := by
  refine ⟨?_, ?_, ?_⟩ <;> decide

/-! ### The neutral frame after `NewDriver` (claim C8) -/

/-- The command buffer stored by `NewDriver`: `cmd: NewCmd()`, untouched
until the first mutator call. -/
def NewDriverCmd : Frame := NewCmd

set_option maxRecDepth 2000 in
/-- C8: after `NewDriver()` the frame is exactly
`66 80 80 80 80 00 00 99`, whose stored CRC byte (0x00) equals the §3 CRC
of the zeroed frame, and `isValid` holds; overwriting byte 0, 5 or 7 with
any different byte value makes `isValid` fail. -/
theorem newDriver_neutral_frame :
    NewDriverCmd.toList = [0x66, 0x80, 0x80, 0x80, 0x80, 0x00, 0x00, 0x99] ∧
    NewDriverCmd.b6 = crc [0x66, 0x80, 0x80, 0x80, 0x80, 0x00, 0x00, 0x99] ∧
    Cmd.isValid NewDriverCmd = true ∧
    (∀ v : Fin 256,
      Cmd.isValid { NewDriverCmd with b0 := v.val } = (v.val == 0x66) ∧
      Cmd.isValid { NewDriverCmd with b5 := v.val } = (v.val == 0x00) ∧
      Cmd.isValid { NewDriverCmd with b7 := v.val } = (v.val == 0x99)) := by
  refine ⟨by decide, by decide, by decide, ?_⟩
  decide

/-! ### CCP response dispatch `Res` (src/vtx part_003-family, vtx.go) -/

/-- Command codes used by the response dispatcher. -/
def keepAliveCmd : Nat := 0x0001

def videoReplayCmd : Nat := 0x0103

def videoReplayEndCmd : Nat := 0x0105

def videoDownloadCmd : Nat := 0x0106

/-- One received Lewei frame: header slot 0 (the command code) and the
payload bytes; the remaining header slots do not influence `Res`. -/
structure LwFrame where
  slot0 : Nat
  payload : List Nat
deriving DecidableEq, Repr

/-- Outcome of `Res`: a returned payload (with a flag recording whether the
socket deadline was refreshed to now + 10 s), the `panic` on an invalid
response command type, or running out of input frames (a blocking read in
the real program). -/
inductive ResOut where
  | ok (payload : List Nat) (deadlineRefreshed : Bool)
  | panicErr
  | starved
deriving DecidableEq, Repr

/-- `Res(cmd, conn)` over the sequence of incoming frames: skip keep-alive
echoes, accept `videoReplayEnd` while expecting `videoReplay`, return an
empty payload on the slot-0-equals-0 closed-channel sentinel, panic on any
other mismatch; on a match refresh the deadline and return the payload. -/
def Res (cmd : Nat) : List LwFrame → ResOut
  | [] => .starved
  | f :: rest =>
    if f.slot0 ≠ cmd then
      if f.slot0 = keepAliveCmd then Res cmd rest
      else if cmd = videoReplayCmd ∧ f.slot0 = videoReplayEndCmd then
        .ok f.payload false
      else if f.slot0 = 0 then .ok [] false
      else .panicErr
    else .ok f.payload true

/-- C6 counterexample: expecting `videoReplay` (0x0103), a frame with
command code `videoReplayEnd` (0x0105) is not the claimed hard protocol
error — `Res` returns its payload (without refreshing the deadline). -/
theorem res_replay_end_not_error :
    Res videoReplayCmd [⟨videoReplayEndCmd, [7]⟩] = .ok [7] false ∧
    ResOut.ok [7] false ≠ ResOut.panicErr := by
  refine ⟨?_, ?_⟩ <;> decide

/-- C6 (amended): for an expected command other than `keepAlive` and 0,
`Res` (1) returns the first matching frame's payload with the deadline
refreshed, (2) silently discards keep-alive frames and continues,
(3) returns an empty payload on a slot-0 = 0 frame, (4) panics on any
other code — except (5) a `videoReplayEnd` frame while expecting
`videoReplay`, whose payload is returned. -/
theorem res_dispatch (cmd : Nat) (hk : cmd ≠ keepAliveCmd) (h0 : cmd ≠ 0) :
    (∀ (f : LwFrame) (rest : List LwFrame), f.slot0 = cmd →
      Res cmd (f :: rest) = .ok f.payload true) ∧
    (∀ (f : LwFrame) (rest : List LwFrame), f.slot0 = keepAliveCmd →
      Res cmd (f :: rest) = Res cmd rest) ∧
    (∀ (f : LwFrame) (rest : List LwFrame), f.slot0 = 0 →
      Res cmd (f :: rest) = .ok [] false) ∧
    (∀ (f : LwFrame) (rest : List LwFrame), f.slot0 ≠ cmd →
      f.slot0 ≠ keepAliveCmd → f.slot0 ≠ 0 →
      ¬(cmd = videoReplayCmd ∧ f.slot0 = videoReplayEndCmd) →
      Res cmd (f :: rest) = .panicErr) ∧
    (∀ (f : LwFrame) (rest : List LwFrame), cmd = videoReplayCmd →
      f.slot0 = videoReplayEndCmd →
      Res cmd (f :: rest) = .ok f.payload false) := by
  refine ⟨?_, ?_, ?_, ?_, ?_⟩
  · intro f rest hf
    show (if f.slot0 ≠ cmd then _ else ResOut.ok f.payload true) = _
    rw [if_neg (by simp [hf])]
  · intro f rest hf
    have hne : f.slot0 ≠ cmd := by rw [hf]; exact fun h => hk h.symm
    show (if f.slot0 ≠ cmd then _ else ResOut.ok f.payload true) = _
    rw [if_pos hne, if_pos hf]
  · intro f rest hf
    have hne : f.slot0 ≠ cmd := by rw [hf]; exact fun h => h0 h.symm
    have hka : f.slot0 ≠ keepAliveCmd := by rw [hf]; decide
    have hre : ¬(cmd = videoReplayCmd ∧ f.slot0 = videoReplayEndCmd) := by
      rw [hf]; rintro ⟨-, h⟩; exact absurd h (by decide)
    show (if f.slot0 ≠ cmd then _ else ResOut.ok f.payload true) = _
    rw [if_pos hne, if_neg hka, if_neg hre, if_pos hf]
  · intro f rest hne hka hz hre
    show (if f.slot0 ≠ cmd then _ else ResOut.ok f.payload true) = _
    rw [if_pos hne, if_neg hka, if_neg hre, if_neg hz]
  · intro f rest hc hf
    have hne : f.slot0 ≠ cmd := by rw [hf, hc]; decide
    show (if f.slot0 ≠ cmd then _ else ResOut.ok f.payload true) = _
    rw [if_pos hne, if_neg (by rw [hf]; decide : f.slot0 ≠ keepAliveCmd),
      if_pos ⟨hc, hf⟩]

/-- Witness for `res_dispatch` at the `takePhoto` command code (0x0013). -/
theorem res_dispatch_witness :
    Res 0x0013 [⟨0x0013, [1, 2]⟩] = .ok [1, 2] true ∧
    Res 0x0013 [⟨0x0001, []⟩, ⟨0x0013, [3]⟩] = Res 0x0013 [⟨0x0013, [3]⟩] ∧
    Res 0x0013 [⟨0, [9]⟩] = .ok [] false ∧
    Res 0x0013 [⟨0x0014, []⟩] = .panicErr ∧
    Res 0x0103 [⟨0x0105, [4]⟩] = .ok [4] false := by
  have h := res_dispatch 0x0013 (by decide) (by decide)
  have h5 := (res_dispatch 0x0103 (by decide) (by decide)).2.2.2.2
  exact ⟨h.1 ⟨0x0013, [1, 2]⟩ [] rfl,
    h.2.1 ⟨0x0001, []⟩ [⟨0x0013, [3]⟩] rfl,
    h.2.2.1 ⟨0, [9]⟩ [] rfl,
    h.2.2.2.1 ⟨0x0014, []⟩ [] (by decide) (by decide) (by decide)
      (by rintro ⟨h, -⟩; exact absurd h (by decide)),
    h5 ⟨0x0105, [4]⟩ [] rfl rfl⟩

/-! ### `DownloadVideo` state machine (src/vtx/actions.go) -/

/-- `binary.LittleEndian.Uint32` of the four bytes at `off` (the code reads
the response through `byteToUint32`, whose entries are little-endian u32s
at offsets 4·i). -/
def u32le (data : List Nat) (off : Nat) : Nat :=
  match data.drop off with
  | a :: b :: c :: d :: _ => a + 256 * b + 65536 * c + 16777216 * d
  | [a, b, c] => a + 256 * b + 65536 * c
  | [a, b] => a + 256 * b
  | [a] => a
  | [] => 0

/-- `data[off : off+len]`. -/
def sliceL (data : List Nat) (off len : Nat) : List Nat :=
  (data.drop off).take len

/-- `bytes.Trim(s, "\x00")`: drop leading and trailing zero bytes. -/
def trimZeros (l : List Nat) : List Nat :=
  ((l.dropWhile (· == 0)).reverse.dropWhile (· == 0)).reverse

/-- State of the download loop: whether the output file has been created
(type-1 frame seen), the bytes written to it, and `bytesLoaded`. -/
structure DlSt where
  created : Bool
  content : List Nat
  loaded : Nat
deriving DecidableEq, Repr

/-- How the download loop ends: clean `break loop` after a size match,
panic on a filename mismatch, `break loop` on an unknown frame type, panic
on writing through the zero-value file handle, or running out of input
(a blocking read in the real program). -/
inductive DlExit where
  | done
  | mismatch
  | wrongState
  | badWrite
  | starved
deriving DecidableEq, Repr

/-- The read loop of `DownloadVideo` over the sequence of response payloads
(`Res(videoDownloadCmd, conn)` results).  Per frame: `chunkSize = data32[1]`,
`fileSize = data32[2]`, `recvFileName = Trim(data[16:116])`; a mismatched
filename panics; type 1 creates the file; type 2 appends
`data[196 : 196+chunkSize]` and adds `chunkSize` to the count (panicking if
no file was created); type 3 breaks the loop only when
`bytesLoaded == fileSize` — otherwise it logs and keeps reading; any other
type breaks the loop. -/
def DownloadVideoLoop (fileName : List Nat) : List (List Nat) → DlSt → DlExit × DlSt
  | [], st => (.starved, st)
  | data :: rest, st =>
    let chunkSize := u32le data 4
    let fileSize := u32le data 8
    let recvFileName := trimZeros (sliceL data 16 100)
    if recvFileName ≠ fileName then (.mismatch, st)
    else
      match u32le data 0 with
      | 1 => DownloadVideoLoop fileName rest { st with created := true }
      | 2 =>
        if st.created then
          DownloadVideoLoop fileName rest
            { st with
              content := st.content ++ sliceL data 196 chunkSize
              loaded := st.loaded + chunkSize }
        else (.badWrite, st)
      | 3 => if st.loaded = fileSize then (.done, st)
             else DownloadVideoLoop fileName rest st
      | _ => (.wrongState, st)

/-- Little-endian byte encoding of a u32 header slot. -/
def u32bytes (n : Nat) : List Nat :=
  [n % 256, n / 256 % 256, n / 65536 % 256, n / 16777216 % 256]

/-- Null-pad a byte string to `k` bytes. -/
def padTo (k : Nat) (l : List Nat) : List Nat :=
  l ++ List.replicate (k - l.length) 0

/-- A well-formed download response frame: type, chunk size and file size
in slots 0–2, the filename null-padded at bytes 16–115, zeros up to the
196-byte request-payload length, then the chunk bytes. -/
def mkDlFrame (typ csz fsz : Nat) (name chunk : List Nat) : List Nat :=
  u32bytes typ ++ u32bytes csz ++ u32bytes fsz ++ u32bytes 0 ++
    padTo 100 name ++ List.replicate 80 0 ++ chunk

set_option maxRecDepth 4000 in
/-- C7 counterexample: after `{start, chunk of 1 byte, end declaring 2}`
the claim says the loop logs and exits at the type-3 frame; the code
instead keeps reading — here a fourth frame (an end declaring 1) is
consumed and terminates the loop cleanly with `done`. -/
theorem downloadVideo_end_mismatch_continues :
    DownloadVideoLoop [65]
      [mkDlFrame 1 0 0 [65] [], mkDlFrame 2 1 2 [65] [9],
        mkDlFrame 3 0 2 [65] [], mkDlFrame 3 0 1 [65] []]
      ⟨false, [], 0⟩ = (.done, ⟨true, [9], 1⟩) := by
  decide

theorem mkDlFrame_typ (typ csz fsz : Nat) (name chunk : List Nat)
    (h : typ < 4294967296) :
    u32le (mkDlFrame typ csz fsz name chunk) 0 = typ := by
  show typ % 256 + 256 * (typ / 256 % 256) + 65536 * (typ / 65536 % 256) +
    16777216 * (typ / 16777216 % 256) = typ
  omega

theorem mkDlFrame_csz (typ csz fsz : Nat) (name chunk : List Nat)
    (h : csz < 4294967296) :
    u32le (mkDlFrame typ csz fsz name chunk) 4 = csz := by
  show csz % 256 + 256 * (csz / 256 % 256) + 65536 * (csz / 65536 % 256) +
    16777216 * (csz / 16777216 % 256) = csz
  omega

theorem mkDlFrame_fsz (typ csz fsz : Nat) (name chunk : List Nat)
    (h : fsz < 4294967296) :
    u32le (mkDlFrame typ csz fsz name chunk) 8 = fsz := by
  show fsz % 256 + 256 * (fsz / 256 % 256) + 65536 * (fsz / 65536 % 256) +
    16777216 * (fsz / 16777216 % 256) = fsz
  omega

theorem dropWhile_zeros_replicate_append (k : Nat) (l : List Nat) :
    List.dropWhile (· == 0) (List.replicate k 0 ++ l) =
      List.dropWhile (· == 0) l := by
  induction k with
  | zero => rfl
  | succ k ih =>
    rw [List.replicate_succ, List.cons_append, List.dropWhile_cons,
      if_pos (show ((0 : Nat) == 0) = true from rfl)]
    exact ih

theorem dropWhile_zeros_of_head_ne {a : Nat} (l : List Nat) (h : a ≠ 0) :
    List.dropWhile (· == 0) (a :: l) = a :: l := by
  rw [List.dropWhile_cons, if_neg]
  simp [h]

theorem trimZeros_padTo {name : List Nat} (hnz : ∀ b ∈ name, b ≠ 0) (k : Nat) :
    trimZeros (name ++ List.replicate k 0) = name := by
  unfold trimZeros
  cases hn : name with
  | nil =>
    rw [List.nil_append, ← List.append_nil (List.replicate k 0),
      dropWhile_zeros_replicate_append]
    rfl
  | cons a t =>
    have ha : a ≠ 0 := by
      apply hnz; rw [hn]; exact List.mem_cons_self a t
    rw [List.cons_append, dropWhile_zeros_of_head_ne _ ha,
      ← List.cons_append, List.reverse_append, List.reverse_replicate,
      dropWhile_zeros_replicate_append]
    rcases hrev : (a :: t).reverse with _ | ⟨b, s⟩
    · exact absurd hrev (by simp)
    · have hb : b ≠ 0 := by
        apply hnz
        rw [hn, ← List.mem_reverse, hrev]
        exact List.mem_cons_self b s
      rw [dropWhile_zeros_of_head_ne _ hb, ← hrev, List.reverse_reverse]

theorem padTo_length {name : List Nat} (h : name.length ≤ 100) :
    (padTo 100 name).length = 100 := by
  rw [padTo, List.length_append, List.length_replicate]
  omega

theorem mkDlFrame_drop16 (typ csz fsz : Nat) (name chunk : List Nat) :
    (mkDlFrame typ csz fsz name chunk).drop 16 =
      (padTo 100 name ++ List.replicate 80 0) ++ chunk := rfl

theorem mkDlFrame_name (typ csz fsz : Nat) (name chunk : List Nat)
    (hn : name.length ≤ 100) (hnz : ∀ b ∈ name, b ≠ 0) :
    trimZeros (sliceL (mkDlFrame typ csz fsz name chunk) 16 100) = name := by
  rw [sliceL, mkDlFrame_drop16, List.append_assoc,
    List.take_left' (padTo_length hn), padTo]
  exact trimZeros_padTo hnz _

theorem mkDlFrame_chunk (typ csz fsz : Nat) (name chunk : List Nat)
    (hn : name.length ≤ 100) :
    sliceL (mkDlFrame typ csz fsz name chunk) 196 chunk.length = chunk := by
  have h196 : (mkDlFrame typ csz fsz name chunk).drop 196 =
      ((mkDlFrame typ csz fsz name chunk).drop 16).drop 180 := by
    rw [List.drop_drop]
  rw [sliceL, h196, mkDlFrame_drop16, List.drop_left', List.take_length]
  rw [List.length_append, List.length_replicate, padTo_length hn]

/-- One unfolding of the download loop at a received frame. -/
theorem dl_cons (fileName data : List Nat) (rest : List (List Nat)) (st : DlSt) :
    DownloadVideoLoop fileName (data :: rest) st =
      (if trimZeros (sliceL data 16 100) ≠ fileName then (.mismatch, st)
       else
        match u32le data 0 with
        | 1 => DownloadVideoLoop fileName rest { st with created := true }
        | 2 =>
          if st.created then
            DownloadVideoLoop fileName rest
              { st with
                content := st.content ++ sliceL data 196 (u32le data 4)
                loaded := st.loaded + u32le data 4 }
          else (.badWrite, st)
        | 3 => if st.loaded = u32le data 8 then (.done, st)
               else DownloadVideoLoop fileName rest st
        | _ => (.wrongState, st)) := rfl

theorem dl_mismatch (fileName data : List Nat) (rest : List (List Nat))
    (st : DlSt) (h : trimZeros (sliceL data 16 100) ≠ fileName) :
    DownloadVideoLoop fileName (data :: rest) st = (.mismatch, st) := by
  rw [dl_cons, if_pos h]

theorem dl_start (fileName data : List Nat) (rest : List (List Nat))
    (st : DlSt) (hname : trimZeros (sliceL data 16 100) = fileName)
    (htyp : u32le data 0 = 1) :
    DownloadVideoLoop fileName (data :: rest) st =
      DownloadVideoLoop fileName rest { st with created := true } := by
  rw [dl_cons, if_neg (by simp [hname]), htyp]

theorem dl_chunk (fileName data : List Nat) (rest : List (List Nat))
    (st : DlSt) (hname : trimZeros (sliceL data 16 100) = fileName)
    (htyp : u32le data 0 = 2) (hcr : st.created = true) :
    DownloadVideoLoop fileName (data :: rest) st =
      DownloadVideoLoop fileName rest
        { st with
          content := st.content ++ sliceL data 196 (u32le data 4)
          loaded := st.loaded + u32le data 4 } := by
  rw [dl_cons, if_neg (by simp [hname]), htyp]
  show (if st.created then _ else _) = _
  rw [if_pos hcr]

theorem dl_end_match (fileName data : List Nat) (rest : List (List Nat))
    (st : DlSt) (hname : trimZeros (sliceL data 16 100) = fileName)
    (htyp : u32le data 0 = 3) (hsz : st.loaded = u32le data 8) :
    DownloadVideoLoop fileName (data :: rest) st = (.done, st) := by
  rw [dl_cons, if_neg (by simp [hname]), htyp]
  show (if st.loaded = u32le data 8 then _ else _) = _
  rw [if_pos hsz]

theorem dl_end_continue (fileName data : List Nat) (rest : List (List Nat))
    (st : DlSt) (hname : trimZeros (sliceL data 16 100) = fileName)
    (htyp : u32le data 0 = 3) (hsz : st.loaded ≠ u32le data 8) :
    DownloadVideoLoop fileName (data :: rest) st =
      DownloadVideoLoop fileName rest st := by
  rw [dl_cons, if_neg (by simp [hname]), htyp]
  show (if st.loaded = u32le data 8 then _ else _) = _
  rw [if_neg hsz]

theorem dl_chunks_run (fileName : List Nat) (hn : fileName.length ≤ 100)
    (hnz : ∀ b ∈ fileName, b ≠ 0) :
    ∀ (chunks : List (List Nat)) (S : Nat) (st : DlSt), S < 4294967296 →
      (∀ ch ∈ chunks, ch.length < 4294967296) →
      st.created = true →
      st.loaded + (chunks.map List.length).sum = S →
      DownloadVideoLoop fileName
        (chunks.map (fun ch => mkDlFrame 2 ch.length S fileName ch) ++
          [mkDlFrame 3 0 S fileName []]) st =
        (.done, ⟨st.created, st.content ++ chunks.flatten, S⟩) := by
  intro chunks
  induction chunks with
  | nil =>
    intro S st hS _ hcr hsum
    simp only [List.map_nil, List.nil_append]
    rw [dl_end_match fileName _ _ st
      (mkDlFrame_name _ _ _ _ _ hn hnz)
      (mkDlFrame_typ _ _ _ _ _ (by omega))
      (by rw [mkDlFrame_fsz _ _ _ _ _ hS]; simpa using hsum)]
    cases st with
    | mk created content loaded =>
      simp only [List.flatten_nil, List.append_nil]
      simp only [List.map_nil, List.sum_nil, Nat.add_zero] at hsum
      simp [hsum]
  | cons ch chunks ih =>
    intro S st hS hch hcr hsum
    simp only [List.map_cons, List.cons_append]
    rw [dl_chunk fileName _ _ st
      (mkDlFrame_name _ _ _ _ _ hn hnz)
      (mkDlFrame_typ _ _ _ _ _ (by omega)) hcr]
    rw [mkDlFrame_csz _ _ _ _ _ (hch ch (List.mem_cons_self ch chunks)),
      mkDlFrame_chunk _ _ _ _ _ hn]
    have hsum' : st.loaded + ch.length + (chunks.map List.length).sum = S := by
      simp only [List.map_cons, List.sum_cons] at hsum
      omega
    have happ := ih S ⟨st.created, st.content ++ ch, st.loaded + ch.length⟩ hS
      (fun c hc => hch c (List.mem_cons_of_mem ch hc)) hcr hsum'
    rw [happ]
    simp [List.append_assoc]

/-- C7 (amended): the download state machine creates the file on type 1,
appends exactly `chunkSize` bytes from payload offset 196 and counts them
on type 2, aborts with a mismatch error on any frame whose embedded
filename differs from the requested one, terminates cleanly on a type-3
frame whose declared size equals the running count, and on a type-3 size
mismatch logs and *continues reading* (it does not exit the loop); for a
well-formed sequence `{start, chunks summing to S, end declaring S}` the
bytes written to the file are exactly the concatenation of the chunks. -/
theorem downloadVideo_state_machine (fileName : List Nat)
    (hn : fileName.length ≤ 100) (hnz : ∀ b ∈ fileName, b ≠ 0) :
    (∀ (chunks : List (List Nat)) (S : Nat), S < 4294967296 →
      (∀ ch ∈ chunks, ch.length < 4294967296) →
      (chunks.map List.length).sum = S →
      DownloadVideoLoop fileName
        (mkDlFrame 1 0 0 fileName [] ::
          (chunks.map (fun ch => mkDlFrame 2 ch.length S fileName ch) ++
            [mkDlFrame 3 0 S fileName []])) ⟨false, [], 0⟩ =
        (.done, ⟨true, chunks.flatten, S⟩)) ∧
    (∀ (data : List Nat) (rest : List (List Nat)) (st : DlSt),
      trimZeros (sliceL data 16 100) ≠ fileName →
      DownloadVideoLoop fileName (data :: rest) st = (.mismatch, st)) ∧
    (∀ (data : List Nat) (rest : List (List Nat)) (st : DlSt),
      trimZeros (sliceL data 16 100) = fileName → u32le data 0 = 3 →
      st.loaded ≠ u32le data 8 →
      DownloadVideoLoop fileName (data :: rest) st =
        DownloadVideoLoop fileName rest st) ∧
    (∀ (data : List Nat) (rest : List (List Nat)) (st : DlSt),
      trimZeros (sliceL data 16 100) = fileName → u32le data 0 = 2 →
      st.created = true →
      DownloadVideoLoop fileName (data :: rest) st =
        DownloadVideoLoop fileName rest
          { st with
            content := st.content ++ sliceL data 196 (u32le data 4)
            loaded := st.loaded + u32le data 4 }) := by
  refine ⟨?_, dl_mismatch fileName, dl_end_continue fileName, dl_chunk fileName⟩
  intro chunks S hS hch hsum
  rw [dl_start fileName _ _ _ (mkDlFrame_name _ _ _ _ _ hn hnz)
    (mkDlFrame_typ _ _ _ _ _ (by omega))]
  rw [dl_chunks_run fileName hn hnz chunks S _ hS hch rfl (by simpa using hsum)]
  rfl

/-- Witness for `downloadVideo_state_machine` at a concrete download. -/
theorem downloadVideo_state_machine_witness :
    DownloadVideoLoop [65]
      (mkDlFrame 1 0 0 [65] [] ::
        ([[9], [8, 7]].map (fun ch => mkDlFrame 2 ch.length 3 [65] ch) ++
          [mkDlFrame 3 0 3 [65] []])) ⟨false, [], 0⟩ =
      (.done, ⟨true, [[9], [8, 7]].flatten, 3⟩) :=
  (downloadVideo_state_machine [65] (by decide) (by decide)).1
    [[9], [8, 7]] 3 (by decide) (by decide) (by decide)

/-! ### Local IP selection `getLocalIP` (claim C9) -/

/-- An IPv4 address as its four octets. -/
structure IPv4 where
  a : Nat
  b : Nat
  c : Nat
  d : Nat
deriving DecidableEq, Repr

/-- `ip.Mask(ip.DefaultMask())`: the classful default mask — /8 below 128,
/16 below 192, /24 below 224, none (nil mask, masking yields nil) above. -/
def ipDefaultMasked (ip : IPv4) : Option IPv4 :=
  if ip.a < 128 then some ⟨ip.a, 0, 0, 0⟩
  else if ip.a < 192 then some ⟨ip.a, ip.b, 0, 0⟩
  else if ip.a < 224 then some ⟨ip.a, ip.b, ip.c, 0⟩
  else none

/-- The loop's guard: `ip.Mask(ip.DefaultMask()).Equal(net.IPv4(192,168,0,0))`
(a nil masked value never equals a concrete address). -/
def inDroneSubnet (ip : IPv4) : Bool :=
  match ipDefaultMasked ip with
  | some m => m = ⟨192, 168, 0, 0⟩
  | none => false

/-- `getLocalIP`: start from `192.168.0.255`; for each host address in the
drone /24, keep it when its last octet is strictly below the current
best's last octet. -/
def getLocalIP (addrs : List IPv4) : IPv4 :=
  addrs.foldl
    (fun best ip =>
      if inDroneSubnet ip then (if ip.d < best.d then ip else best) else best)
    ⟨192, 168, 0, 255⟩

/-- The address as a number, for "numerically smallest". -/
def ipNum (ip : IPv4) : Nat :=
  ((ip.a * 256 + ip.b) * 256 + ip.c) * 256 + ip.d

/-- Modelled from the spec: the claim's selection rule, with the
"fall back to an OS-assigned local address" branch rendered as `none`
(no explicit bind address, the OS chooses). -/
def getLocalIPClaimed (addrs : List IPv4) : Option IPv4 :=
  match addrs.filter inDroneSubnet with
  | [] => none
  | x :: xs => some (xs.foldl (fun best ip => if ipNum ip < ipNum best then ip else best) x)

theorem inDroneSubnet_iff (ip : IPv4) :
    inDroneSubnet ip = true ↔ ip.a = 192 ∧ ip.b = 168 ∧ ip.c = 0 := by
  unfold inDroneSubnet ipDefaultMasked
  by_cases h1 : ip.a < 128
  · simp only [if_pos h1]
    simp [IPv4.mk.injEq]
    omega
  · simp only [if_neg h1]
    by_cases h2 : ip.a < 192
    · simp only [if_pos h2]
      simp [IPv4.mk.injEq]
      omega
    · simp only [if_neg h2]
      by_cases h3 : ip.a < 224
      · simp only [if_pos h3]
        simp [IPv4.mk.injEq]
      · simp only [if_neg h3]
        simp [IPv4.mk.injEq]
        omega

theorem ipNum_le_of_subnet {x y : IPv4} (hx : inDroneSubnet x = true)
    (hy : inDroneSubnet y = true) (h : x.d ≤ y.d) : ipNum x ≤ ipNum y := by
  obtain ⟨ha, hb, hc⟩ := (inDroneSubnet_iff x).mp hx
  obtain ⟨ha', hb', hc'⟩ := (inDroneSubnet_iff y).mp hy
  unfold ipNum
  rw [ha, hb, hc, ha', hb', hc']
  omega

theorem ipNum_le_iff_of_subnet {x y : IPv4} (hx : inDroneSubnet x = true)
    (hy : inDroneSubnet y = true) : ipNum x ≤ ipNum y ↔ x.d ≤ y.d := by
  obtain ⟨ha, hb, hc⟩ := (inDroneSubnet_iff x).mp hx
  obtain ⟨ha', hb', hc'⟩ := (inDroneSubnet_iff y).mp hy
  unfold ipNum
  rw [ha, hb, hc, ha', hb', hc']
  omega

/-- Invariant of the selection fold. -/
theorem getLocalIP_fold (addrs : List IPv4) :
    ∀ best : IPv4, inDroneSubnet best = true →
      (inDroneSubnet (addrs.foldl
          (fun best ip => if inDroneSubnet ip then
            (if ip.d < best.d then ip else best) else best) best) = true) ∧
      ((addrs.foldl (fun best ip => if inDroneSubnet ip then
          (if ip.d < best.d then ip else best) else best) best).d ≤ best.d) ∧
      (∀ ip ∈ addrs, inDroneSubnet ip = true →
        (addrs.foldl (fun best ip => if inDroneSubnet ip then
          (if ip.d < best.d then ip else best) else best) best).d ≤ ip.d) ∧
      ((addrs.foldl (fun best ip => if inDroneSubnet ip then
          (if ip.d < best.d then ip else best) else best) best) ∈ addrs ∨
        (addrs.foldl (fun best ip => if inDroneSubnet ip then
          (if ip.d < best.d then ip else best) else best) best) = best) ∧
      ((∀ ip ∈ addrs, inDroneSubnet ip = false) →
        (addrs.foldl (fun best ip => if inDroneSubnet ip then
          (if ip.d < best.d then ip else best) else best) best) = best) := by
  induction addrs with
  | nil =>
    intro best hb
    exact ⟨hb, le_rfl, fun ip h => absurd h (List.not_mem_nil ip),
      Or.inr rfl, fun _ => rfl⟩
  | cons ip0 addrs ih =>
    intro best hb
    simp only [List.foldl_cons]
    by_cases hs : inDroneSubnet ip0 = true
    · by_cases hd : ip0.d < best.d
      · have hstep : (if inDroneSubnet ip0 then
            (if ip0.d < best.d then ip0 else best) else best) = ip0 := by
          rw [if_pos hs, if_pos hd]
        rw [hstep]
        obtain ⟨i1, i2, i3, i4, i5⟩ := ih ip0 hs
        refine ⟨i1, by omega, ?_, ?_, ?_⟩
        · intro ip hip hsub
          rcases List.mem_cons.mp hip with h | h
          · subst h; exact i2
          · exact i3 ip h hsub
        · rcases i4 with h | h
          · exact Or.inl (List.mem_cons_of_mem ip0 h)
          · exact Or.inl (by rw [h]; exact List.mem_cons_self ip0 addrs)
        · intro hall
          exact absurd hs (by simp [hall ip0 (List.mem_cons_self ip0 addrs)])
      · have hstep : (if inDroneSubnet ip0 then
            (if ip0.d < best.d then ip0 else best) else best) = best := by
          rw [if_pos hs, if_neg hd]
        rw [hstep]
        obtain ⟨i1, i2, i3, i4, i5⟩ := ih best hb
        refine ⟨i1, i2, ?_, ?_, ?_⟩
        · intro ip hip hsub
          rcases List.mem_cons.mp hip with h | h
          · subst h; omega
          · exact i3 ip h hsub
        · rcases i4 with h | h
          · exact Or.inl (List.mem_cons_of_mem ip0 h)
          · exact Or.inr h
        · intro hall
          exact absurd hs (by simp [hall ip0 (List.mem_cons_self ip0 addrs)])
    · have hstep : (if inDroneSubnet ip0 then
          (if ip0.d < best.d then ip0 else best) else best) = best := by
        rw [if_neg (by simpa using hs)]
      rw [hstep]
      obtain ⟨i1, i2, i3, i4, i5⟩ := ih best hb
      refine ⟨i1, i2, ?_, ?_, ?_⟩
      · intro ip hip hsub
        rcases List.mem_cons.mp hip with h | h
        · subst h; exact absurd hsub hs
        · exact i3 ip h hsub
      · rcases i4 with h | h
        · exact Or.inl (List.mem_cons_of_mem ip0 h)
        · exact Or.inr h
      · intro hall
        exact i5 fun ip h => hall ip (List.mem_cons_of_mem ip0 h)

/-- C9 (amended): `getLocalIP` returns an address in the 192.168.0.0/24
subnet that is numerically smallest among the matching host addresses
(every matching host address is ≥ the result); it is either one of the
host addresses or the fixed fallback; and when no host address matches the
subnet it returns the fixed address `192.168.0.255` — not an OS-assigned
address. -/
theorem getLocalIP_spec (addrs : List IPv4) :
    inDroneSubnet (getLocalIP addrs) = true ∧
    (∀ ip ∈ addrs, inDroneSubnet ip = true →
      ipNum (getLocalIP addrs) ≤ ipNum ip) ∧
    (getLocalIP addrs ∈ addrs ∨ getLocalIP addrs = ⟨192, 168, 0, 255⟩) ∧
    ((∀ ip ∈ addrs, inDroneSubnet ip = false) →
      getLocalIP addrs = ⟨192, 168, 0, 255⟩) := by
  have hb : inDroneSubnet ⟨192, 168, 0, 255⟩ = true := by decide
  obtain ⟨i1, _, i3, i4, i5⟩ := getLocalIP_fold addrs ⟨192, 168, 0, 255⟩ hb
  refine ⟨i1, ?_, i4, i5⟩
  intro ip hip hsub
  exact ipNum_le_of_subnet i1 hsub (i3 ip hip hsub)

/-- Witness for `getLocalIP_spec` at a concrete address list. -/
theorem getLocalIP_spec_witness :
    inDroneSubnet (getLocalIP [⟨10, 0, 0, 5⟩, ⟨192, 168, 0, 7⟩, ⟨192, 168, 0, 3⟩]) = true ∧
    ipNum (getLocalIP [⟨10, 0, 0, 5⟩, ⟨192, 168, 0, 7⟩, ⟨192, 168, 0, 3⟩]) ≤
      ipNum ⟨192, 168, 0, 7⟩ :=
  ⟨(getLocalIP_spec _).1,
    (getLocalIP_spec _).2.1 ⟨192, 168, 0, 7⟩ (by decide) (by decide)⟩

/-- C9 counterexample: with no host address in 192.168.0.0/24 the code does
not fall back to an OS-assigned address — it returns the fixed
`192.168.0.255`, an address that is not among the host addresses (the
claim's rule, with OS-assignment modelled as `none`, returns `none` here). -/
theorem getLocalIP_fallback_not_os_assigned :
    getLocalIP [⟨10, 0, 0, 1⟩] = ⟨192, 168, 0, 255⟩ ∧
    (⟨192, 168, 0, 255⟩ : IPv4) ∉ [(⟨10, 0, 0, 1⟩ : IPv4)] ∧
    getLocalIPClaimed [⟨10, 0, 0, 1⟩] = none := by
  refine ⟨?_, ?_, ?_⟩ <;> decide

end Dronio
